import Mathlib

/-!
Verification of the vulnerability match engine
(enterprise/internal/codeintel/sentinel/internal/store/matches.go).

Go strings are embedded as `String`; where string internals matter
(semantic-version parsing, constraint parsing, SQL LIKE matching) we work on
the character list `String.toList`.  Fallible scans are embedded with
`Except String`.  SQL statements are embedded as list transformations over
explicit table states.
-/

set_option linter.unusedVariables false

/-! ## Character-list utilities (Go strings.Split / strings.Join) -/

/-- Embedding of strings.Split on a single-character separator, as used by the
go-version constraint parser (NewConstraint splits its input on commas). -/
def splitOnChar (sep : Char) : List Char → List (List Char)
  | [] => [[]]
  | c :: cs =>
    let rest := splitOnChar sep cs
    if c = sep then [] :: rest
    else
      match rest with
      | [] => [[c]]
      | r :: rs => (c :: r) :: rs

/-- Embedding of strings.Join with separator comma, as used by
versionMatchesConstraints (matches.go line 265). -/
def joinWithComma : List (List Char) → List Char
  | [] => []
  | [c] => c
  | c :: cs => c ++ ',' :: joinWithComma cs

/-- Trim leading and trailing spaces (the go-version constraint grammar allows
whitespace around the operator and the version token). -/
def trimSpaces (cs : List Char) : List Char :=
  ((cs.dropWhile (· = ' ')).reverse.dropWhile (· = ' ')).reverse

/-- Parse a nonempty all-digit character list as a natural number. -/
def parseNatChars (cs : List Char) : Option Nat :=
  if cs ≠ [] ∧ cs.all Char.isDigit then
    some (cs.foldl (fun n c => n * 10 + (c.toNat - 48)) 0)
  else none

/-! ## Version constraint evaluator

The Go code delegates parsing and checking to the external library
github.com/hashicorp/go-version, which is not part of this repository.
Modelled from the spec: section 4.1 describes the evaluator contract
(a version is major.minor.patch with an optional pre-release suffix after a
dash and build metadata after a plus sign; a constraint set is a comma-joined
list of operator-plus-version tokens with operators equal, not-equal, greater,
greater-or-equal, less, less-or-equal; a parse failure on either side yields
matches=false, valid=false). -/

/-- A parsed semantic version. -/
structure SemVer where
  major : Nat
  minor : Nat
  patch : Nat
  prerelease : List Char
deriving DecidableEq

/-- Modelled from the spec: semantic-version parsing (spec section 4.1).
Build metadata after a plus sign is ignored; an optional pre-release suffix
follows a dash; the core must be exactly three dot-separated numeric parts. -/
def parseVersion (s : List Char) : Option SemVer :=
  let noBuild := s.takeWhile (· ≠ '+')
  let core := noBuild.takeWhile (· ≠ '-')
  let pre := (noBuild.dropWhile (· ≠ '-')).drop 1
  match splitOnChar '.' core with
  | [a, b, c] =>
    match parseNatChars a, parseNatChars b, parseNatChars c with
    | some maj, some mi, some pa => some ⟨maj, mi, pa, pre⟩
    | _, _, _ => none
  | _ => none

/-- Lexicographic comparison of character lists. -/
def compareChars : List Char → List Char → Ordering
  | [], [] => .eq
  | [], _ :: _ => .lt
  | _ :: _, [] => .gt
  | a :: as, b :: bs =>
    if a < b then .lt else if b < a then .gt else compareChars as bs

/-- Pre-release comparison: a release (empty pre-release) sorts after any
pre-release; two pre-releases compare lexicographically. -/
def comparePre : List Char → List Char → Ordering
  | [], [] => .eq
  | [], _ :: _ => .gt
  | _ :: _, [] => .lt
  | p, q => compareChars p q

/-- Total order on parsed versions: numeric triple first, then pre-release. -/
def compareSemVer (a b : SemVer) : Ordering :=
  if a.major < b.major then .lt else if b.major < a.major then .gt
  else if a.minor < b.minor then .lt else if b.minor < a.minor then .gt
  else if a.patch < b.patch then .lt else if b.patch < a.patch then .gt
  else comparePre a.prerelease b.prerelease

/-- The comparison operators of the constraint grammar (spec section 4.1). -/
inductive ConstraintOp
  | opEq | opNe | opGt | opGe | opLt | opLe
deriving DecidableEq

/-- Evaluate one comparison operator against a version comparison result. -/
def checkOp (op : ConstraintOp) (ord : Ordering) : Bool :=
  match op, ord with
  | .opEq, .eq => true
  | .opEq, _ => false
  | .opNe, .eq => false
  | .opNe, _ => true
  | .opGt, .gt => true
  | .opGt, _ => false
  | .opGe, .lt => false
  | .opGe, _ => true
  | .opLt, .lt => true
  | .opLt, _ => false
  | .opLe, .gt => false
  | .opLe, _ => true

/-- Read the operator prefix of one constraint token; a missing operator
defaults to equality. -/
def readOp : List Char → ConstraintOp × List Char
  | '>' :: '=' :: rest => (.opGe, rest)
  | '<' :: '=' :: rest => (.opLe, rest)
  | '!' :: '=' :: rest => (.opNe, rest)
  | '>' :: rest => (.opGt, rest)
  | '<' :: rest => (.opLt, rest)
  | '=' :: rest => (.opEq, rest)
  | rest => (.opEq, rest)

/-- One parsed constraint: an operator and a target version. -/
structure Constraint where
  op : ConstraintOp
  target : SemVer
deriving DecidableEq

/-- Parse one comma-separated piece of a constraint set. -/
def parseConstraintPiece (s : List Char) : Option Constraint :=
  let t := trimSpaces s
  let (op, rest) := readOp t
  match parseVersion (trimSpaces rest) with
  | some v => some ⟨op, v⟩
  | none => none

/-- All-or-nothing traversal: the go-version constraint parser fails if any
comma-separated piece fails. -/
def mapOption (f : α → Option β) : List α → Option (List β)
  | [] => some []
  | a :: as =>
    match f a, mapOption f as with
    | some b, some bs => some (b :: bs)
    | _, _ => none

/-- Modelled from the spec: go-version NewConstraint splits its input on
commas and parses every piece; any malformed piece fails the whole set. -/
def newConstraint (s : List Char) : Option (List Constraint) :=
  mapOption parseConstraintPiece (splitOnChar ',' s)

/-- Modelled from the spec: go-version Constraint.Check is the conjunction of
all parsed constraints. -/
def constraintCheck (cs : List Constraint) (v : SemVer) : Bool :=
  cs.all fun c => checkOp c.op (compareSemVer v c.target)

/-- Embedding of versionMatchesConstraints (matches.go lines 259 to 271):
parse the version, parse the comma-joined constraint list, and on success
return the conjunction check together with valid=true; either parse failure
returns matches=false, valid=false. -/
def versionMatchesConstraints (versionString : String) (constraints : List String) :
    Bool × Bool :=
  match parseVersion versionString.toList with
  | none => (false, false)
  | some v =>
    match newConstraint (joinWithComma (constraints.map String.toList)) with
    | none => (false, false)
    | some cs => (constraintCheck cs v, true)

/-- The property of the spec that a version satisfies one constraint
expression: the expression parses and every one of its comma-separated pieces
checks against the version (character-list form). -/
def satisfiesExprChars (v : SemVer) (c : List Char) : Bool :=
  match newConstraint c with
  | some cs => constraintCheck cs v
  | none => false

/-- The property of the spec that a version satisfies one constraint
expression of the list: the expression parses and every one of its
comma-separated pieces checks against the version. -/
def satisfiesConstraintExpr (v : SemVer) (c : String) : Bool :=
  satisfiesExprChars v c.toList

/-! ## SQL LIKE matching and substring containment -/

/-- Embedding of SQL LIKE pattern matching (Postgres semantics): the percent
sign matches any character sequence, the underscore matches exactly one
character, and a backslash escapes the following pattern character.  The whole
text must match the whole pattern. -/
def sqlLike : List Char → List Char → Bool
  | [], t => t.isEmpty
  | '%' :: p, t => t.tails.any fun s => sqlLike p s
  | '_' :: p, t =>
    match t with
    | [] => false
    | _ :: t2 => sqlLike p t2
  | '\\' :: p, t =>
    match p, t with
    | [], _ => false
    | c :: p2, [] => false
    | c :: p2, c2 :: t2 => c = c2 && sqlLike p2 t2
  | c :: p, t =>
    match t with
    | [] => false
    | c2 :: t2 => c = c2 && sqlLike p t2

/-- Does the needle occur at the start of the haystack? -/
def startsWithCh : List Char → List Char → Bool
  | _, [] => true
  | [], _ :: _ => false
  | c :: s, d :: t => c = d && startsWithCh s t

/-- Plain substring containment (the notion of Go strings.Contains, and the
notion the spec uses for candidate generation): does the needle occur
somewhere inside the haystack? -/
def containsCh : List Char → List Char → Bool
  | [], t => startsWithCh [] t
  | c :: s, t => startsWithCh (c :: s) t || containsCh s t

/-- Embedding of the join condition of scanMatchesQuery (matches.go line 221):
r.name LIKE percent-sign followed by vap.package_name followed by
percent-sign. -/
def nameLikePackage (name packageName : String) : Bool :=
  sqlLike ('%' :: (packageName.toList ++ ['%'])) name.toList

/-- Embedding of the WHERE disjunction built by ScanMatches (matches.go lines
151 to 166) from the static scheme-to-language mapping: gomod maps to go and
npm maps to Javascript. -/
def schemeLanguageCond (scheme language : String) : Bool :=
  (scheme = "gomod" && language = "go") || (scheme = "npm" && language = "Javascript")

/-! ## Relational state for the scan engine -/

/-- A row of the external lsif_references table (spec: PackageReference). -/
structure PackageReference where
  dump_id : Nat
  scheme : String
  name : String
  version : String
deriving DecidableEq

/-- A row of the external vulnerability_affected_packages catalog table. -/
structure VulnerabilityAffectedPackage where
  id : Nat
  vulnerability_id : Nat
  package_name : String
  language : String
  Namespace : String
  version_constraint : List String
  fixed : Bool
  fixed_in : Option String
deriving DecidableEq

/-- A row of the external vulnerability_affected_symbols catalog table. -/
structure AffectedSymbolRow where
  id : Nat
  vulnerability_affected_package_id : Nat
  path : String
  symbols : List String
deriving DecidableEq

/-- A persisted row of the vulnerability_matches table. -/
structure MatchRow where
  id : Nat
  upload_id : Nat
  vulnerability_affected_package_id : Nat
deriving DecidableEq

/-- The vulnerability_matches table: its rows plus the next value of the id
sequence. -/
structure MatchTable where
  rows : List MatchRow
  nextId : Nat
deriving DecidableEq

/-- The key pair of a match row. -/
def pairOf (r : MatchRow) : Nat × Nat :=
  (r.upload_id, r.vulnerability_affected_package_id)

/-- The empty vulnerability_matches table. -/
def emptyTable : MatchTable := ⟨[], 1⟩

/-- The candidate struct of the scan engine (store.VulnerabilityMatch,
matches.go lines 238 to 241). -/
structure StoreVulnerabilityMatch where
  UploadID : Nat
  VulnerabilityAffectedPackageID : Nat
deriving DecidableEq

/-- One row produced by scanMatchesQuery: upload id, affected package id,
reference version, version constraint list. -/
structure CandRow where
  uploadID : Nat
  vapID : Nat
  version : String
  constraints : List String
deriving DecidableEq

/-- Embedding of scanMatchesQuery (matches.go lines 213 to 223): join every
affected package against every reference whose name matches the LIKE pattern
built from the package name, keep the pairs allowed by the scheme-to-language
disjunction, and emit the candidate tuple. -/
def scanCandidates (vaps : List VulnerabilityAffectedPackage)
    (refs : List PackageReference) : List CandRow :=
  vaps.flatMap fun vap =>
    (refs.filter fun r =>
        nameLikePackage r.name vap.package_name &&
        schemeLanguageCond r.scheme vap.language).map
      fun r => ⟨r.dump_id, vap.id, r.version, vap.version_constraint⟩

/-- Embedding of scanFilteredVulnerabilityMatches (matches.go lines 243 to
257): keep exactly the candidate rows whose version satisfies the constraint
set; validity is discarded, and evaluator outcomes never produce an error. -/
def scanFilteredVulnerabilityMatches (rows : List CandRow) :
    List StoreVulnerabilityMatch :=
  rows.filterMap fun r =>
    if (versionMatchesConstraints r.version r.constraints).1 then
      some ⟨r.uploadID, r.vapID⟩
    else none

/-- Modelled from the spec: the vulnerability_matches table is unique on the
pair (uploadID, affectedPackageID) (spec sections 3 and 6; the migration that
declares the unique index is not under src), and scanMatchesUpdateQuery
(matches.go lines 232 to 236) inserts with ON CONFLICT DO NOTHING, so a row
whose key pair is already present is skipped without an error. -/
def insertMatch (t : MatchTable) (m : StoreVulnerabilityMatch) : MatchTable :=
  if (m.UploadID, m.VulnerabilityAffectedPackageID) ∈ t.rows.map pairOf then t
  else ⟨t.rows ++ [⟨t.nextId, m.UploadID, m.VulnerabilityAffectedPackageID⟩], t.nextId + 1⟩

/-- Embedding of ScanMatches (matches.go lines 141 to 211): generate
candidates, filter them through the evaluator, and insert every survivor into
the matches table, ignoring key pairs already present. -/
def scanMatches (vaps : List VulnerabilityAffectedPackage)
    (refs : List PackageReference) (t : MatchTable) : MatchTable :=
  (scanFilteredVulnerabilityMatches (scanCandidates vaps refs)).foldl insertMatch t

/-- Run a sequence of ScanMatches invocations, each over its own state of the
catalog and reference tables, starting from the empty matches table. -/
def runScans (runs : List (List VulnerabilityAffectedPackage × List PackageReference)) :
    MatchTable :=
  runs.foldl (fun t rv => scanMatches rv.1 rv.2 t) emptyTable

/-! ## Shared domain objects of the read path -/

/-- The shared.AffectedSymbol domain object. -/
structure AffectedSymbol where
  Path : String
  Symbols : List String
deriving DecidableEq

/-- The shared.AffectedPackage domain object. -/
structure AffectedPackage where
  PackageName : String
  Language : String
  Namespace : String
  VersionConstraint : List String
  Fixed : Bool
  FixedIn : Option String
  AffectedSymbols : List AffectedSymbol
deriving DecidableEq

/-- The Go zero value of shared.AffectedPackage. -/
def zeroAffectedPackage : AffectedPackage :=
  ⟨"", "", "", [], false, none, []⟩

/-- The shared.VulnerabilityMatch domain object. -/
structure VulnerabilityMatch where
  ID : Nat
  UploadID : Nat
  VulnerabilityID : Nat
  Pkg : AffectedPackage
deriving DecidableEq

/-! ## Row scanning and reconstruction -/

/-- One physical row of a match query result: the three columns of the match
itself, the left-joined affected-package columns (nullable), the left-joined
affected-symbol columns (nullable), and the count sidecar column. -/
structure PhysRow where
  id : Nat
  upload_id : Nat
  vulnerability_id : Option Nat
  package_name : Option String
  language : Option String
  Namespace : Option String
  version_constraint : Option (List String)
  fixed : Option Bool
  fixed_in : Option String
  sym_path : Option String
  sym_symbols : Option (List String)
  count : Nat
deriving DecidableEq

/-- Modelled from the spec: dbutil.NullString (repository code not under src)
leaves the destination at its zero value on NULL, so a NULL text column scans
to the empty string. -/
def nullStr (o : Option String) : String := o.getD ""

/-- Embedding of one iteration of the row scanner inside
scanVulnerabilityMatchesAndCount (matches.go lines 97 to 132).

The joined vulnerability_id column is scanned into a plain Go int, and the
database/sql layer rejects a NULL value for a non-nullable integer
destination, so a package-side left-join miss fails the whole scan; every
nullable text column goes through dbutil.NullString and scans NULL to the
empty string.

The symbols column is passed to pq.Array by value, not by address (matches.go
line 116, contrast line 112), so the column is parsed into a discarded copy
and the AffectedSymbol struct keeps its nil Symbols slice: the embedding
ignores sym_symbols and always carries an empty symbol-name list. -/
def scanRow (r : PhysRow) : Except String VulnerabilityMatch :=
  match r.vulnerability_id with
  | none => .error ("sql: converting NULL to int is unsupported")
  | some vid =>
    let vap : AffectedPackage :=
      { PackageName := nullStr r.package_name
        Language := nullStr r.language
        Namespace := nullStr r.Namespace
        VersionConstraint := r.version_constraint.getD []
        Fixed := r.fixed.getD false
        FixedIn := none
        AffectedSymbols := [] }
    let fixedIn := nullStr r.fixed_in
    let vas : AffectedSymbol := { Path := nullStr r.sym_path, Symbols := [] }
    let vap := if fixedIn ≠ "" then { vap with FixedIn := some fixedIn } else vap
    let vap :=
      if vas.Path ≠ "" then
        { vap with AffectedSymbols := vap.AffectedSymbols ++ [vas] }
      else vap
    let m : VulnerabilityMatch :=
      { ID := r.id, UploadID := r.upload_id, VulnerabilityID := vid,
        Pkg := zeroAffectedPackage }
    .ok (if vap.PackageName ≠ "" then { m with Pkg := vap } else m)

/-- One step of the flattening loop of flattenMatches: the accumulator is kept
in reverse, so its head is the most recently emitted logical match. -/
def flattenStep (flattened : List VulnerabilityMatch) (m : VulnerabilityMatch) :
    List VulnerabilityMatch :=
  match flattened with
  | [] => [m]
  | prev :: rest =>
    if prev.ID ≠ m.ID then m :: prev :: rest
    else if prev.Pkg.PackageName = "" then
      { prev with Pkg := m.Pkg } :: rest
    else
      { prev with Pkg :=
          { prev.Pkg with
              AffectedSymbols := prev.Pkg.AffectedSymbols ++ m.Pkg.AffectedSymbols } } :: rest

/-- Embedding of flattenMatches (matches.go lines 76 to 94): walk the scanned
matches in order, starting a new logical match whenever the row id differs
from the last emitted match, replacing an empty affected package wholesale,
and otherwise appending the incoming symbol rows. -/
def flattenMatches (ms : List VulnerabilityMatch) : List VulnerabilityMatch :=
  (ms.foldl flattenStep []).reverse

/-- The count returned by the slice-with-count scanner: each row overwrites
the running count, so the result is the count of the last row, zero when the
result set is empty. -/
def totalCountOf (rows : List PhysRow) : Nat :=
  rows.foldl (fun _ r => r.count) 0

/-- Scan every physical row in order, stopping at the first scan error. -/
def scanRows : List PhysRow → Except String (List VulnerabilityMatch)
  | [] => .ok []
  | r :: rs =>
    match scanRow r, scanRows rs with
    | .ok m, .ok ms => .ok (m :: ms)
    | .error e, _ => .error e
    | .ok _, .error e => .error e

/-- Embedding of scanVulnerabilityMatchesAndCount (matches.go lines 96 to
139): scan all rows, flatten the result, and return it with the count carried
by the rows. -/
def scanVulnerabilityMatchesAndCount (rows : List PhysRow) :
    Except String (List VulnerabilityMatch × Nat) :=
  (scanRows rows).map fun ms => (flattenMatches ms, totalCountOf rows)

/-! ## The paginated list query -/

/-- Insertion into a list sorted by a numeric key. -/
def insertByKey (key : α → Nat) (a : α) : List α → List α
  | [] => [a]
  | b :: bs => if key a ≤ key b then a :: b :: bs else b :: insertByKey key a bs

/-- Insertion sort by a numeric key, embedding SQL ORDER BY on an id column. -/
def sortByKey (key : α → Nat) (l : List α) : List α :=
  l.foldr (insertByKey key) []

/-- The limited_matches CTE of getVulnerabilityMatchesQuery (matches.go lines
53 to 62): order the matches table by id and apply OFFSET then LIMIT; the
window count is computed before the limit and equals the full table size. -/
def limitedMatches (t : MatchTable) (limit offset : Nat) : List MatchRow :=
  ((sortByKey (fun r => r.id) t.rows).drop offset).take limit

/-- The physical rows contributed by one match row joined with one affected
package: one row per affected-symbol row of the package (ordered by symbol
id), or a single row with NULL symbol columns when the package has none. -/
def vapPhysRows (m : MatchRow) (cnt : Nat) (vap : VulnerabilityAffectedPackage)
    (syms : List AffectedSymbolRow) : List PhysRow :=
  let group := sortByKey (fun s => s.id)
    (syms.filter fun s => s.vulnerability_affected_package_id = vap.id)
  if group.isEmpty then
    [{ id := m.id, upload_id := m.upload_id,
       vulnerability_id := some vap.vulnerability_id,
       package_name := some vap.package_name, language := some vap.language,
       Namespace := some vap.Namespace,
       version_constraint := some vap.version_constraint,
       fixed := some vap.fixed, fixed_in := vap.fixed_in,
       sym_path := none, sym_symbols := none, count := cnt }]
  else
    group.map fun s =>
      { id := m.id, upload_id := m.upload_id,
        vulnerability_id := some vap.vulnerability_id,
        package_name := some vap.package_name, language := some vap.language,
        Namespace := some vap.Namespace,
        version_constraint := some vap.version_constraint,
        fixed := some vap.fixed, fixed_in := vap.fixed_in,
        sym_path := some s.path, sym_symbols := some s.symbols, count := cnt }

/-- The physical rows contributed by one match row of the page: left join
against the affected packages (ordered by package id), falling back to a
single all-NULL row when no package matches, then left join each package
against its affected symbols. -/
def matchPhysRows (vaps : List VulnerabilityAffectedPackage)
    (syms : List AffectedSymbolRow) (cnt : Nat) (m : MatchRow) : List PhysRow :=
  let group := sortByKey (fun v => v.id)
    (vaps.filter fun v => v.id = m.vulnerability_affected_package_id)
  if group.isEmpty then
    [{ id := m.id, upload_id := m.upload_id, vulnerability_id := none,
       package_name := none, language := none, Namespace := none,
       version_constraint := none, fixed := none, fixed_in := none,
       sym_path := none, sym_symbols := none, count := cnt }]
  else
    group.flatMap fun vap => vapPhysRows m cnt vap syms

/-- Embedding of getVulnerabilityMatchesQuery (matches.go lines 52 to 74): the
physical result rows of the paginated list query, every one carrying the
window count computed over the whole matches table. -/
def getVulnerabilityMatchesRows (t : MatchTable)
    (vaps : List VulnerabilityAffectedPackage) (syms : List AffectedSymbolRow)
    (limit offset : Nat) : List PhysRow :=
  (limitedMatches t limit offset).flatMap (matchPhysRows vaps syms t.rows.length)

/-- Embedding of GetVulnerabilityMatches (matches.go lines 45 to 50): run the
paginated query and scan the rows. -/
def GetVulnerabilityMatches (t : MatchTable)
    (vaps : List VulnerabilityAffectedPackage) (syms : List AffectedSymbolRow)
    (limit offset : Nat) : Except String (List VulnerabilityMatch × Nat) :=
  scanVulnerabilityMatchesAndCount (getVulnerabilityMatchesRows t vaps syms limit offset)

/-! ## Concrete instances used by witnesses and counterexamples -/

/-- A reference whose name aXc is not a superstring of the package name a_c,
yet matches it under LIKE (the underscore wildcard consumes the X). -/
def refAXc : PackageReference := ⟨10, "gomod", "aXc", "1.4.0"⟩

/-- A catalog package whose name contains an underscore, which is a
single-character wildcard inside a LIKE pattern. -/
def vapUnderscore : VulnerabilityAffectedPackage :=
  ⟨5, 9, "a_c", "go", "", [">=1.0.0"], false, none⟩

/-- The reference of the end-to-end scenario of the spec (section 8). -/
def refBar : PackageReference := ⟨10, "gomod", "github.com/foo/bar", "1.4.0"⟩

/-- The affected package of the end-to-end scenario of the spec (section 8). -/
def vapBar : VulnerabilityAffectedPackage :=
  ⟨5, 9, "bar", "go", "", [">=1.0.0", "<1.5.0"], false, none⟩

/-- A matches table already holding the pair (10, 5). -/
def tableWithPair : MatchTable := ⟨[⟨1, 10, 5⟩], 2⟩

/-- A candidate row whose version string does not parse. -/
def candBad : CandRow := ⟨10, 5, "abc", [">=1.0.0"]⟩

/-- A candidate row whose version parses and satisfies its constraint. -/
def candGood : CandRow := ⟨11, 6, "1.2.0", [">=1.0.0"]⟩

/-- The non-nullable and package-side columns shared by all physical rows of
one match in a symbol fan-out. -/
structure FanoutBase where
  id : Nat
  upload_id : Nat
  vulnerability_id : Nat
  package_name : String
  language : String
  Namespace : String
  version_constraint : List String
  fixed : Bool
  fixed_in : String
  count : Nat

/-- The physical row of one affected-symbol join row in a fan-out: all rows of
the match share the base columns and differ only in the symbol columns. -/
def fanoutRow (b : FanoutBase) (s : String × List String) : PhysRow :=
  { id := b.id, upload_id := b.upload_id, vulnerability_id := some b.vulnerability_id,
    package_name := some b.package_name, language := some b.language,
    Namespace := some b.Namespace, version_constraint := some b.version_constraint,
    fixed := some b.fixed, fixed_in := some b.fixed_in,
    sym_path := some s.1, sym_symbols := some s.2, count := b.count }

/-- The single logical match a fan-out must reconstruct into: one affected
package carrying one symbol entry per row, in row order (the symbol-name
lists are empty because the scanner passes the symbols column by value). -/
def fanoutResult (b : FanoutBase) (syms : List (String × List String)) :
    VulnerabilityMatch :=
  { ID := b.id, UploadID := b.upload_id, VulnerabilityID := b.vulnerability_id,
    Pkg := { PackageName := b.package_name, Language := b.language,
             Namespace := b.Namespace, VersionConstraint := b.version_constraint,
             Fixed := b.fixed,
             FixedIn := if b.fixed_in = "" then none else some b.fixed_in,
             AffectedSymbols := syms.map fun s => ⟨s.1, []⟩ } }

/-- A concrete fan-out base used by witnesses. -/
def fanoutBase0 : FanoutBase :=
  { id := 4, upload_id := 5, vulnerability_id := 6, package_name := "pkg",
    language := "go", Namespace := "", version_constraint := ["<2.0.0"],
    fixed := false, fixed_in := "", count := 1 }

/-- A physical row carrying an affected-symbol record with a nonempty
symbol-name list. -/
def rowWithSymbols : PhysRow :=
  { id := 1, upload_id := 2, vulnerability_id := some 3,
    package_name := some ("lodash"), language := some ("Javascript"),
    Namespace := some ("npm"), version_constraint := some ["<4.17.12"],
    fixed := some true, fixed_in := some ("4.17.12"),
    sym_path := some ("lib/defaultsDeep.js"),
    sym_symbols := some ["defaultsDeep", "mergeWith"], count := 7 }

/-- The logical match scanned from rowWithSymbols: the affected-symbol entry
keeps its path but its symbol-name list is empty, because the scanner passes
the symbols column to the array decoder by value. -/
def scannedLodash : VulnerabilityMatch :=
  { ID := 1, UploadID := 2, VulnerabilityID := 3,
    Pkg := { PackageName := "lodash", Language := "Javascript", Namespace := "npm",
             VersionConstraint := ["<4.17.12"], Fixed := true,
             FixedIn := some ("4.17.12"),
             AffectedSymbols := [{ Path := "lib/defaultsDeep.js", Symbols := [] }] } }

/-- A physical row whose package joined but whose symbol join missed: the
symbol columns are NULL. -/
def pathlessRow : PhysRow :=
  { id := 8, upload_id := 9, vulnerability_id := some 10,
    package_name := some ("pkg"), language := some ("go"), Namespace := none,
    version_constraint := some [">=1.0.0"], fixed := some false,
    fixed_in := none, sym_path := none, sym_symbols := none, count := 0 }

/-- The logical match scanned from pathlessRow: a package with no symbols. -/
def pathlessScanned : VulnerabilityMatch :=
  { ID := 8, UploadID := 9, VulnerabilityID := 10,
    Pkg := { PackageName := "pkg", Language := "go", Namespace := "",
             VersionConstraint := [">=1.0.0"], Fixed := false,
             FixedIn := none, AffectedSymbols := [] } }

/-- The logical match value scanned from one fan-out row. -/
def fanoutScanned (b : FanoutBase) (s : String × List String) : VulnerabilityMatch :=
  { ID := b.id, UploadID := b.upload_id, VulnerabilityID := b.vulnerability_id,
    Pkg := { PackageName := b.package_name, Language := b.language,
             Namespace := b.Namespace, VersionConstraint := b.version_constraint,
             Fixed := b.fixed,
             FixedIn := if b.fixed_in = "" then none else some b.fixed_in,
             AffectedSymbols := [⟨s.1, []⟩] } }

/-- A physical row of a package-side left-join miss: every joined column is
NULL, including the vulnerability id. -/
def missRow : PhysRow :=
  { id := 1, upload_id := 2, vulnerability_id := none,
    package_name := none, language := none, Namespace := none,
    version_constraint := none, fixed := none, fixed_in := none,
    sym_path := none, sym_symbols := none, count := 0 }

/-- A physical row whose joined package row exists but carries the empty
string as its package name. -/
def emptyNameRow : PhysRow :=
  { id := 1, upload_id := 2, vulnerability_id := some 3,
    package_name := some (""), language := some ("go"), Namespace := none,
    version_constraint := some [">=1.0.0"], fixed := some false,
    fixed_in := some ("1.2.0"), sym_path := some ("x.go"),
    sym_symbols := none, count := 0 }

/-- A two-row matches table used by the pagination witness. -/
def tableTwo : MatchTable := ⟨[⟨1, 10, 5⟩, ⟨2, 11, 5⟩], 3⟩

/-- The count component of a reconstruction result. -/
def resCount : Except String (List VulnerabilityMatch × Nat) → Option Nat
  | .ok (_, n) => some n
  | .error _ => none

/-! ## Lemmas on splitting and joining constraint strings -/

theorem splitOnChar_ne_nil (sep : Char) (l : List Char) : splitOnChar sep l ≠ [] := by
  cases l with
  | nil => simp [splitOnChar]
  | cons c cs =>
    simp only [splitOnChar]
    split
    · simp
    · split <;> simp

theorem splitOnChar_cons_self (sep : Char) (cs : List Char) :
    splitOnChar sep (sep :: cs) = [] :: splitOnChar sep cs := by
  simp [splitOnChar]

theorem splitOnChar_cons_ne (sep c : Char) (cs : List Char) (hc : c ≠ sep) :
    splitOnChar sep (c :: cs) =
      match splitOnChar sep cs with
      | [] => [[c]]
      | r :: rs => (c :: r) :: rs := by
  simp [splitOnChar, hc]

theorem splitOnChar_append (sep : Char) (xs ys : List Char) :
    splitOnChar sep (xs ++ sep :: ys) =
      splitOnChar sep xs ++ splitOnChar sep ys := by
  induction xs with
  | nil =>
    rw [List.nil_append, splitOnChar_cons_self]
    rfl
  | cons c cs ih =>
    rw [List.cons_append]
    by_cases hc : c = sep
    · subst hc
      rw [splitOnChar_cons_self, splitOnChar_cons_self, ih, List.cons_append]
    · rw [splitOnChar_cons_ne sep c _ hc, splitOnChar_cons_ne sep c cs hc, ih]
      cases h : splitOnChar sep cs with
      | nil => exact absurd h (splitOnChar_ne_nil sep cs)
      | cons r rs => simp [h]

theorem mapOption_append (f : α → Option β) :
    ∀ (xs ys : List α) (zs : List β), mapOption f (xs ++ ys) = some zs →
      ∃ as bs, mapOption f xs = some as ∧ mapOption f ys = some bs ∧ zs = as ++ bs := by
  intro xs
  induction xs with
  | nil =>
    intro ys zs h
    exact ⟨[], zs, rfl, h, rfl⟩
  | cons a as ih =>
    intro ys zs h
    have h2 : (match f a, mapOption f (as ++ ys) with
        | some b, some bs => some (b :: bs)
        | _, _ => none) = some zs := h
    cases hfa : f a with
    | none => rw [hfa] at h2; simp at h2
    | some b =>
      rw [hfa] at h2
      cases hrest : mapOption f (as ++ ys) with
      | none => rw [hrest] at h2; simp at h2
      | some zs2 =>
        rw [hrest] at h2
        simp only [Option.some.injEq] at h2
        obtain ⟨as2, bs, h1, h2b, h3⟩ := ih ys zs2 hrest
        refine ⟨b :: as2, bs, ?_, h2b, ?_⟩
        · simp [mapOption, hfa, h1]
        · simp [← h2, h3]

theorem parseConstraintPiece_nil : parseConstraintPiece [] = none := by decide

theorem constraintCheck_joinWithComma (v : SemVer) :
    ∀ (ls : List (List Char)) (ps : List Constraint),
      newConstraint (joinWithComma ls) = some ps →
      constraintCheck ps v = ls.all (satisfiesExprChars v)
  | [], ps, h => by
    simp [newConstraint, joinWithComma, splitOnChar, mapOption,
      parseConstraintPiece_nil] at h
  | [c], ps, h => by
    simp only [joinWithComma] at h
    simp [satisfiesExprChars, h]
  | c :: c2 :: ls, ps, h => by
    simp only [joinWithComma, newConstraint] at h
    rw [splitOnChar_append] at h
    obtain ⟨as, bs, h1, h2, h3⟩ := mapOption_append parseConstraintPiece _ _ _ h
    have hbs := constraintCheck_joinWithComma v (c2 :: ls) bs h2
    subst h3
    simp only [List.all_cons, constraintCheck, List.all_append] at hbs ⊢
    have has : satisfiesExprChars v c = as.all fun cst => checkOp cst.op (compareSemVer v cst.target) := by
      simp [satisfiesExprChars, newConstraint, h1, constraintCheck]
    rw [has, ← hbs]

theorem vmc_version_unparsable (vs : String) (cs : List String)
    (h : parseVersion vs.toList = none) :
    versionMatchesConstraints vs cs = (false, false) := by
  unfold versionMatchesConstraints
  rw [h]

theorem vmc_constraint_unparsable (vs : String) (cs : List String)
    (h : newConstraint (joinWithComma (cs.map String.toList)) = none) :
    versionMatchesConstraints vs cs = (false, false) := by
  unfold versionMatchesConstraints
  cases hv : parseVersion vs.toList with
  | none => rfl
  | some v => simp [h]

theorem scanFiltered_drops (r : CandRow) (pre post : List CandRow)
    (h : (versionMatchesConstraints r.version r.constraints).1 = false) :
    scanFilteredVulnerabilityMatches (pre ++ r :: post) =
      scanFilteredVulnerabilityMatches (pre ++ post) := by
  simp only [scanFilteredVulnerabilityMatches, List.filterMap_append,
    List.filterMap_cons, h]
  simp

/-- C1: for every version string and list of constraint expressions that both
parse successfully, versionMatchesConstraints returns matches=true exactly
when the version satisfies every constraint expression of the list (logical
AND over the list), and returns valid=true in that case regardless of the
match outcome. -/
theorem versionMatchesConstraints_conjunction
    (vs : String) (cs : List String) (v : SemVer) (ps : List Constraint)
    (hv : parseVersion vs.toList = some v)
    (hc : newConstraint (joinWithComma (cs.map String.toList)) = some ps) :
    versionMatchesConstraints vs cs = (cs.all (satisfiesConstraintExpr v), true) := by
  simp only [versionMatchesConstraints, hv, hc]
  rw [constraintCheck_joinWithComma v (cs.map String.toList) ps hc]
  clear hc
  induction cs with
  | nil => rfl
  | cons c cs2 ih => simp_all [satisfiesConstraintExpr]

/-- Witness for C1 at version 1.2.3 against the two constraints of the spec
example: both sides parse and the evaluator returns the conjunction with
valid=true. -/
theorem versionMatchesConstraints_conjunction_witness :
    parseVersion ("1.2.3").toList = some ⟨1, 2, 3, []⟩ ∧
    newConstraint (joinWithComma ([">=1.0.0", "<2.0.0"].map String.toList)) =
      some [⟨.opGe, ⟨1, 0, 0, []⟩⟩, ⟨.opLt, ⟨2, 0, 0, []⟩⟩] ∧
    versionMatchesConstraints "1.2.3" [">=1.0.0", "<2.0.0"] =
      ([">=1.0.0", "<2.0.0"].all (satisfiesConstraintExpr ⟨1, 2, 3, []⟩), true) :=
  ⟨by decide, by decide,
    versionMatchesConstraints_conjunction "1.2.3" [">=1.0.0", "<2.0.0"]
      ⟨1, 2, 3, []⟩ [⟨.opGe, ⟨1, 0, 0, []⟩⟩, ⟨.opLt, ⟨2, 0, 0, []⟩⟩]
      (by decide) (by decide)⟩

/-- C7: an unparsable version string (and likewise a malformed constraint
list) makes the evaluator return matches=false and valid=false rather than an
error, and the scan filter merely excludes such a candidate from the
persisted results, leaving the other candidates untouched. -/
theorem invalidVersionTolerated (r : CandRow) (pre post : List CandRow) :
    (parseVersion r.version.toList = none →
      versionMatchesConstraints r.version r.constraints = (false, false) ∧
      scanFilteredVulnerabilityMatches (pre ++ r :: post) =
        scanFilteredVulnerabilityMatches (pre ++ post)) ∧
    (newConstraint (joinWithComma (r.constraints.map String.toList)) = none →
      versionMatchesConstraints r.version r.constraints = (false, false) ∧
      scanFilteredVulnerabilityMatches (pre ++ r :: post) =
        scanFilteredVulnerabilityMatches (pre ++ post)) := by
  constructor
  · intro h
    have hm := vmc_version_unparsable r.version r.constraints h
    exact ⟨hm, scanFiltered_drops r pre post (by rw [hm])⟩
  · intro h
    have hm := vmc_constraint_unparsable r.version r.constraints h
    exact ⟨hm, scanFiltered_drops r pre post (by rw [hm])⟩

/-- Witness for C7: the version string abc does not parse, the evaluator
returns matches=false valid=false on it, and the scan filter drops the bad
candidate while keeping the good one. -/
theorem invalidVersionTolerated_witness :
    parseVersion candBad.version.toList = none ∧
    versionMatchesConstraints candBad.version candBad.constraints = (false, false) ∧
    scanFilteredVulnerabilityMatches [candBad, candGood] =
      scanFilteredVulnerabilityMatches [candGood] :=
  ⟨by decide,
    ((invalidVersionTolerated candBad [] [candGood]).1 (by decide)).1,
    ((invalidVersionTolerated candBad [] [candGood]).1 (by decide)).2⟩

/-- C8 counterexample: the reference name aXc does not contain the package
name a_c as a substring, yet candidate generation emits a tuple for the pair,
because the underscore in the package name is a single-character wildcard of
the SQL LIKE pattern the query builds; so substring containment does not
characterize candidate generation. -/
theorem scanCandidates_not_substring :
    scanCandidates [vapUnderscore] [refAXc] = [⟨10, 5, "1.4.0", [">=1.0.0"]⟩] ∧
    containsCh ("aXc").toList ("a_c").toList = false := by decide

/-- C8 amended: ScanMatches generates a candidate tuple exactly for those
pairs of a reference and an affected package whose scheme and language pass
the static mapping disjunction and whose reference name matches the SQL LIKE
pattern percent, package name, percent, in which an underscore matches any
single character and a percent sign any sequence (substring containment is
the special case of a package name without wildcard characters). -/
theorem scanCandidates_characterization
    (c : CandRow) (vaps : List VulnerabilityAffectedPackage)
    (refs : List PackageReference) :
    c ∈ scanCandidates vaps refs ↔
      ∃ vap ∈ vaps, ∃ r ∈ refs,
        nameLikePackage r.name vap.package_name = true ∧
        schemeLanguageCond r.scheme vap.language = true ∧
        c = ⟨r.dump_id, vap.id, r.version, vap.version_constraint⟩ := by
  simp only [scanCandidates, List.mem_flatMap, List.mem_map, List.mem_filter,
    Bool.and_eq_true]
  constructor
  · rintro ⟨vap, hvap, r, ⟨hr, hlike, hcond⟩, rfl⟩
    exact ⟨vap, hvap, r, hr, hlike, hcond, rfl⟩
  · rintro ⟨vap, hvap, r, hr, hlike, hcond, rfl⟩
    exact ⟨vap, hvap, r, ⟨hr, hlike, hcond⟩, rfl⟩

/-! ## Lemmas on conflict-ignoring insertion -/

theorem insertMatch_absorb (t : MatchTable) (m : StoreVulnerabilityMatch)
    (h : (m.UploadID, m.VulnerabilityAffectedPackageID) ∈ t.rows.map pairOf) :
    insertMatch t m = t := by
  simp [insertMatch, h]

theorem mem_pairs_insertMatch_self (t : MatchTable) (m : StoreVulnerabilityMatch) :
    (m.UploadID, m.VulnerabilityAffectedPackageID) ∈ (insertMatch t m).rows.map pairOf := by
  unfold insertMatch
  split
  · assumption
  · simp [pairOf]

theorem mem_pairs_insertMatch_mono (t : MatchTable) (m : StoreVulnerabilityMatch)
    (q : Nat × Nat) (h : q ∈ t.rows.map pairOf) :
    q ∈ (insertMatch t m).rows.map pairOf := by
  unfold insertMatch
  split
  · exact h
  · simp only [List.map_append, List.mem_append]
    exact Or.inl h

theorem mem_pairs_foldl_mono (ms : List StoreVulnerabilityMatch) :
    ∀ (t : MatchTable) (q : Nat × Nat), q ∈ t.rows.map pairOf →
      q ∈ ((ms.foldl insertMatch t).rows.map pairOf) := by
  induction ms with
  | nil => intro t q h; exact h
  | cons m ms ih =>
    intro t q h
    exact ih _ q (mem_pairs_insertMatch_mono t m q h)

theorem mem_pairs_foldl_self (ms : List StoreVulnerabilityMatch) :
    ∀ (t : MatchTable) (m : StoreVulnerabilityMatch), m ∈ ms →
      (m.UploadID, m.VulnerabilityAffectedPackageID) ∈
        ((ms.foldl insertMatch t).rows.map pairOf) := by
  induction ms with
  | nil => intro t m h; cases h
  | cons m2 ms ih =>
    intro t m h
    rcases List.mem_cons.mp h with h1 | h2
    · subst h1
      exact mem_pairs_foldl_mono ms (insertMatch t m) _
        (mem_pairs_insertMatch_self t m)
    · exact ih (insertMatch t m2) m h2

theorem foldl_insertMatch_absorb (ms : List StoreVulnerabilityMatch) :
    ∀ (t : MatchTable),
      (∀ m ∈ ms, (m.UploadID, m.VulnerabilityAffectedPackageID) ∈ t.rows.map pairOf) →
      ms.foldl insertMatch t = t := by
  induction ms with
  | nil => intro t h; rfl
  | cons m ms ih =>
    intro t h
    have habs : insertMatch t m = t :=
      insertMatch_absorb t m (h m (List.mem_cons_self m ms))
    rw [List.foldl_cons, habs]
    exact ih t fun m2 hm2 => h m2 (List.mem_cons_of_mem m hm2)

theorem nodup_insertMatch (t : MatchTable) (m : StoreVulnerabilityMatch)
    (h : (t.rows.map pairOf).Nodup) :
    ((insertMatch t m).rows.map pairOf).Nodup := by
  unfold insertMatch
  split
  · exact h
  · rename_i hmem
    simp only [List.map_append, List.map_cons, List.map_nil]
    rw [List.nodup_append]
    refine ⟨h, List.nodup_singleton _, ?_⟩
    intro q hq
    simp only [pairOf, List.mem_singleton]
    intro heq
    exact hmem (heq ▸ hq)

theorem nodup_foldl_insertMatch (ms : List StoreVulnerabilityMatch) :
    ∀ (t : MatchTable), (t.rows.map pairOf).Nodup →
      ((ms.foldl insertMatch t).rows.map pairOf).Nodup := by
  induction ms with
  | nil => intro t h; exact h
  | cons m ms ih => intro t h; exact ih _ (nodup_insertMatch t m h)

theorem nodup_runScans
    (runs : List (List VulnerabilityAffectedPackage × List PackageReference)) :
    ((runScans runs).rows.map pairOf).Nodup := by
  have hgen : ∀ (rs : List (List VulnerabilityAffectedPackage × List PackageReference))
      (t : MatchTable), (t.rows.map pairOf).Nodup →
      (((rs.foldl (fun t2 rv => scanMatches rv.1 rv.2 t2) t)).rows.map pairOf).Nodup := by
    intro rs
    induction rs with
    | nil => intro t h; exact h
    | cons rv rs ih =>
      intro t h
      exact ih _ (nodup_foldl_insertMatch _ t h)
  exact hgen runs emptyTable (by simp [emptyTable])

theorem count_pair_le_one (u a : Nat) :
    ∀ (l : List MatchRow), (l.map pairOf).Nodup →
      (l.filter fun r => pairOf r = (u, a)).length ≤ 1
  | [], _ => by simp
  | r :: l, h => by
    simp only [List.map_cons, List.nodup_cons] at h
    by_cases hr : pairOf r = (u, a)
    · rw [List.filter_cons_of_pos (by simp [hr])]
      have hnil : (l.filter fun r2 => pairOf r2 = (u, a)) = [] := by
        rw [List.filter_eq_nil_iff]
        intro b hb
        simp only [decide_eq_true_eq]
        intro hb2
        have : pairOf r ∈ l.map pairOf := by
          rw [hr, ← hb2]
          exact List.mem_map_of_mem pairOf hb
        exact h.1 this
      simp [hnil]
    · rw [List.filter_cons_of_neg (by simp [hr])]
      exact count_pair_le_one u a l h.2

/-- C2: after any sequence of ScanMatches invocations starting from the empty
matches table, at most one row exists for every pair of an upload id and an
affected package id, and an insert attempt for an already-present pair is
silently absorbed, adding no row and returning the table unchanged. -/
theorem matches_pair_unique :
    (∀ (runs : List (List VulnerabilityAffectedPackage × List PackageReference))
        (u a : Nat),
      ((runScans runs).rows.filter fun r => pairOf r = (u, a)).length ≤ 1) ∧
    ∀ (t : MatchTable) (m : StoreVulnerabilityMatch),
      (m.UploadID, m.VulnerabilityAffectedPackageID) ∈ t.rows.map pairOf →
      insertMatch t m = t := by
  constructor
  · intro runs u a
    exact count_pair_le_one u a _ (nodup_runScans runs)
  · intro t m h
    exact insertMatch_absorb t m h

/-- Witness for C2 on the end-to-end scenario of the spec: one scan run over
the bar package, and a duplicate insert of the pair (10, 5) into a table that
already holds it. -/
theorem matches_pair_unique_witness :
    (((runScans [([vapBar], [refBar])]).rows.filter
        fun r => pairOf r = (10, 5)).length ≤ 1) ∧
    (10, 5) ∈ tableWithPair.rows.map pairOf ∧
    insertMatch tableWithPair ⟨10, 5⟩ = tableWithPair :=
  ⟨matches_pair_unique.1 [([vapBar], [refBar])] 10 5,
    by decide,
    matches_pair_unique.2 tableWithPair ⟨10, 5⟩ (by decide)⟩

/-- C3: ScanMatches is idempotent: with the references and catalog unchanged,
a second run leaves the matches table exactly as the first run left it. -/
theorem scanMatches_idempotent (vaps : List VulnerabilityAffectedPackage)
    (refs : List PackageReference) (t : MatchTable) :
    scanMatches vaps refs (scanMatches vaps refs t) = scanMatches vaps refs t := by
  unfold scanMatches
  apply foldl_insertMatch_absorb
  intro m hm
  exact mem_pairs_foldl_self _ t m hm

/-! ## Lemmas on the row scanner and reconstruction -/

theorem scanRow_eq (r : PhysRow) (vid : Nat) (h : r.vulnerability_id = some vid) :
    scanRow r = .ok
      { ID := r.id, UploadID := r.upload_id, VulnerabilityID := vid,
        Pkg :=
          if nullStr r.package_name ≠ "" then
            { PackageName := nullStr r.package_name,
              Language := nullStr r.language,
              Namespace := nullStr r.Namespace,
              VersionConstraint := r.version_constraint.getD [],
              Fixed := r.fixed.getD false,
              FixedIn := if nullStr r.fixed_in ≠ "" then some (nullStr r.fixed_in) else none,
              AffectedSymbols :=
                if nullStr r.sym_path ≠ "" then [⟨nullStr r.sym_path, []⟩] else [] }
          else zeroAffectedPackage } := by
  unfold scanRow
  rw [h]
  by_cases hfi : nullStr r.fixed_in = "" <;> by_cases hsp : nullStr r.sym_path = "" <;>
    by_cases hpn : nullStr r.package_name = "" <;>
    simp [hfi, hsp, hpn, zeroAffectedPackage]

theorem scanRow_error (r : PhysRow) (h : r.vulnerability_id = none) :
    scanRow r = .error ("sql: converting NULL to int is unsupported") := by
  unfold scanRow
  rw [h]

theorem scanRow_fixedIn_single (r : PhysRow) (m : VulnerabilityMatch)
    (h : scanRow r = .ok m) : m.Pkg.FixedIn ≠ some "" := by
  cases hv : r.vulnerability_id with
  | none => rw [scanRow_error r hv] at h; cases h
  | some vid =>
    rw [scanRow_eq r vid hv] at h
    simp only [Except.ok.injEq] at h
    subst h
    by_cases hpn : nullStr r.package_name = ""
    · simp [hpn, zeroAffectedPackage]
    · by_cases hfi : nullStr r.fixed_in = "" <;> simp [hpn, hfi]

theorem scanRows_fixedIn :
    ∀ (rows : List PhysRow) (ms : List VulnerabilityMatch),
      scanRows rows = .ok ms → ∀ m ∈ ms, m.Pkg.FixedIn ≠ some ""
  | [], ms, h => by
    cases h
    simp
  | r :: rows, ms, h => by
    unfold scanRows at h
    cases hr : scanRow r with
    | error e => rw [hr] at h; cases h
    | ok m0 =>
      rw [hr] at h
      cases hrs : scanRows rows with
      | error e => rw [hrs] at h; cases h
      | ok ms0 =>
        rw [hrs] at h
        cases h
        intro m hm
        rcases List.mem_cons.mp hm with h1 | h2
        · subst h1
          exact scanRow_fixedIn_single r m hr
        · exact scanRows_fixedIn rows ms0 hrs m h2

theorem foldl_flattenStep_fixedIn :
    ∀ (ms : List VulnerabilityMatch) (acc : List VulnerabilityMatch),
      (∀ m ∈ ms, m.Pkg.FixedIn ≠ some "") →
      (∀ m ∈ acc, m.Pkg.FixedIn ≠ some "") →
      ∀ m ∈ ms.foldl flattenStep acc, m.Pkg.FixedIn ≠ some ""
  | [], acc, _, hacc => hacc
  | m0 :: ms, acc, hms, hacc => by
    rw [List.foldl_cons]
    apply foldl_flattenStep_fixedIn ms (flattenStep acc m0)
      (fun x hx => hms x (List.mem_cons_of_mem m0 hx))
    intro x hx
    have hm0 : m0.Pkg.FixedIn ≠ some "" := hms m0 (List.mem_cons_self m0 ms)
    cases acc with
    | nil =>
      have hstep : flattenStep [] m0 = [m0] := rfl
      rw [hstep] at hx
      rcases List.mem_singleton.mp hx with rfl
      exact hm0
    | cons prev rest =>
      have hprev : prev.Pkg.FixedIn ≠ some "" :=
        hacc prev (List.mem_cons_self prev rest)
      have hrest : ∀ y ∈ rest, y.Pkg.FixedIn ≠ some "" :=
        fun y hy => hacc y (List.mem_cons_of_mem prev hy)
      simp only [flattenStep] at hx
      split at hx
      · rcases List.mem_cons.mp hx with rfl | hx2
        · exact hm0
        · rcases List.mem_cons.mp hx2 with rfl | hx3
          · exact hprev
          · exact hrest x hx3
      · split at hx
        · rcases List.mem_cons.mp hx with rfl | hx2
          · exact hm0
          · exact hrest x hx2
        · rcases List.mem_cons.mp hx with rfl | hx2
          · exact hprev
          · exact hrest x hx2

theorem flattenMatches_fixedIn (ms : List VulnerabilityMatch)
    (h : ∀ m ∈ ms, m.Pkg.FixedIn ≠ some "") :
    ∀ m ∈ flattenMatches ms, m.Pkg.FixedIn ≠ some "" := by
  intro m hm
  rw [flattenMatches, List.mem_reverse] at hm
  exact foldl_flattenStep_fixedIn ms [] h (by simp) m hm

/-- C9: an attached affected package carries fixedIn as absent exactly when
the catalog row carried the empty string, and as the literal catalog value
otherwise; and no reconstructed match of a successful scan ever carries
fixedIn as the literal empty string. -/
theorem fixedIn_normalized :
    (∀ (r : PhysRow) (vid : Nat) (m : VulnerabilityMatch),
        r.vulnerability_id = some vid → nullStr r.package_name ≠ "" →
        scanRow r = .ok m →
        m.Pkg.FixedIn =
          if nullStr r.fixed_in = "" then none else some (nullStr r.fixed_in)) ∧
    ∀ (rows : List PhysRow) (ms : List VulnerabilityMatch) (cnt : Nat),
      scanVulnerabilityMatchesAndCount rows = .ok (ms, cnt) →
      ∀ m ∈ ms, m.Pkg.FixedIn ≠ some "" := by
  constructor
  · intro r vid m hv hpn h
    rw [scanRow_eq r vid hv] at h
    simp only [Except.ok.injEq] at h
    subst h
    by_cases hfi : nullStr r.fixed_in = "" <;> simp [hpn, hfi]
  · intro rows ms cnt h
    unfold scanVulnerabilityMatchesAndCount at h
    cases hrs : scanRows rows with
    | error e => rw [hrs] at h; cases h
    | ok ms0 =>
      rw [hrs] at h
      simp only [Except.map, Except.ok.injEq, Prod.mk.injEq] at h
      rcases h with ⟨h1, h2⟩
      subst h1
      exact flattenMatches_fixedIn ms0 (scanRows_fixedIn rows ms0 hrs)

/-- Witness for C9 on the lodash row: fixedIn is the literal catalog value,
and the one reconstructed match of the one-row scan does not carry the empty
string. -/
theorem fixedIn_normalized_witness :
    scannedLodash.Pkg.FixedIn =
      (if nullStr rowWithSymbols.fixed_in = "" then none
       else some (nullStr rowWithSymbols.fixed_in)) ∧
    ∀ m ∈ [scannedLodash], m.Pkg.FixedIn ≠ some "" :=
  ⟨fixedIn_normalized.1 rowWithSymbols 3 scannedLodash (by rfl) (by decide) (by rfl),
    fixedIn_normalized.2 [rowWithSymbols] [scannedLodash] 7 (by rfl)⟩

/-- C10 counterexample: an affected package whose packageName is the empty
string is not indistinguishable from a left-join miss: the empty-name row
scans successfully into a package-less match, while the miss row, whose
joined vulnerability id is also NULL, fails the integer scan and errors the
whole query. -/
theorem missRow_distinguishable :
    (scanRow missRow).toOption = none ∧
    (scanRow emptyNameRow).toOption = some ⟨1, 2, 3, zeroAffectedPackage⟩ := by
  decide

/-- C10 amended: the scanner uses the empty string as its absent sentinel for
the nullable text columns: a joined package whose name is empty or NULL is
never attached to the returned match, an affected symbol whose path is empty
or NULL is omitted from the symbol list, and a NULL fixed-in column is
indistinguishable from an empty-string one; but an actual package-side
left-join miss also nullifies the joined vulnerability id, which is scanned
into a non-nullable integer and fails the row scan with an error rather than
producing a package-less match. -/
theorem empty_string_sentinel :
    (∀ (r : PhysRow) (vid : Nat), r.vulnerability_id = some vid →
        nullStr r.package_name = "" →
        scanRow r = .ok ⟨r.id, r.upload_id, vid, zeroAffectedPackage⟩) ∧
    (∀ (r : PhysRow) (m : VulnerabilityMatch), scanRow r = .ok m →
        nullStr r.sym_path = "" → m.Pkg.AffectedSymbols = []) ∧
    (∀ (r : PhysRow),
        scanRow { r with fixed_in := none } = scanRow { r with fixed_in := some ("") }) ∧
    (∀ (r : PhysRow), r.vulnerability_id = none →
        scanRow r = .error ("sql: converting NULL to int is unsupported")) := by
  refine ⟨?_, ?_, ?_, ?_⟩
  · intro r vid hv hpn
    rw [scanRow_eq r vid hv]
    simp [hpn]
  · intro r m h hsp
    cases hv : r.vulnerability_id with
    | none => rw [scanRow_error r hv] at h; cases h
    | some vid =>
      rw [scanRow_eq r vid hv] at h
      simp only [Except.ok.injEq] at h
      subst h
      by_cases hpn : nullStr r.package_name = "" <;>
        simp [hpn, hsp, zeroAffectedPackage]
  · intro r
    unfold scanRow
    rfl
  · intro r hv
    exact scanRow_error r hv

/-- Witness for the amended C10: the empty-name row yields a package-less
match, the pathless row yields a package with no symbols, fixed-in NULL and
fixed-in empty scan identically on the miss row, and the miss row itself
errors. -/
theorem empty_string_sentinel_witness :
    scanRow emptyNameRow = .ok ⟨1, 2, 3, zeroAffectedPackage⟩ ∧
    pathlessScanned.Pkg.AffectedSymbols = [] ∧
    scanRow { missRow with fixed_in := none } =
      scanRow { missRow with fixed_in := some ("") } ∧
    scanRow missRow = .error ("sql: converting NULL to int is unsupported") :=
  ⟨empty_string_sentinel.1 emptyNameRow 3 (by rfl) (by decide),
    empty_string_sentinel.2.1 pathlessRow pathlessScanned (by rfl) (by decide),
    empty_string_sentinel.2.2.1 missRow,
    empty_string_sentinel.2.2.2 missRow (by rfl)⟩

/-- C5 (code bug): the physical row carries the nonempty symbol-name list of
the catalog, but the reconstructed AffectedSymbol keeps only the path: its
symbol list is empty, because pq.Array receives the Symbols slice by value
(matches.go line 116) and the scan writes into a discarded copy. -/
theorem scanRow_loses_symbol_names :
    rowWithSymbols.sym_symbols = some ["defaultsDeep", "mergeWith"] ∧
    (scanRow rowWithSymbols).toOption = some scannedLodash ∧
    (scannedLodash.Pkg.AffectedSymbols.map fun s => s.Symbols) = [[]] := by
  decide

theorem scanRow_fanoutRow (b : FanoutBase) (s : String × List String)
    (hpn : b.package_name ≠ "") (hpath : s.1 ≠ "") :
    scanRow (fanoutRow b s) = .ok (fanoutScanned b s) := by
  rw [scanRow_eq (fanoutRow b s) b.vulnerability_id rfl]
  by_cases hfi : b.fixed_in = "" <;>
    simp [fanoutRow, fanoutScanned, nullStr, hpn, hpath, hfi]

theorem scanRows_map_ok (f : α → PhysRow) (g : α → VulnerabilityMatch) :
    ∀ (l : List α), (∀ a ∈ l, scanRow (f a) = .ok (g a)) →
      scanRows (l.map f) = .ok (l.map g)
  | [], _ => rfl
  | a :: l, h => by
    have h1 := h a (List.mem_cons_self a l)
    have h2 := scanRows_map_ok f g l fun x hx => h x (List.mem_cons_of_mem a hx)
    simp only [List.map_cons, scanRows, h1, h2]

theorem symbols_flatMap (b : FanoutBase) :
    ∀ (l : List (String × List String)),
      ((l.map (fanoutScanned b)).flatMap fun m => m.Pkg.AffectedSymbols) =
        l.map fun s => (⟨s.1, []⟩ : AffectedSymbol)
  | [] => rfl
  | s :: l => by
    simp only [List.map_cons, List.flatMap_cons, symbols_flatMap b l]
    rfl

theorem foldl_flattenStep_run :
    ∀ (ms : List VulnerabilityMatch) (cur : VulnerabilityMatch),
      (∀ m ∈ ms, m.ID = cur.ID) → cur.Pkg.PackageName ≠ "" →
      ms.foldl flattenStep [cur] =
        [{ cur with Pkg := { cur.Pkg with AffectedSymbols :=
            cur.Pkg.AffectedSymbols ++ ms.flatMap fun m => m.Pkg.AffectedSymbols } }]
  | [], cur, _, _ => by simp
  | m :: ms, cur, hms, hpn => by
    have hm : m.ID = cur.ID := hms m (List.mem_cons_self m ms)
    have hstep : flattenStep [cur] m =
        [{ cur with Pkg := { cur.Pkg with AffectedSymbols :=
            cur.Pkg.AffectedSymbols ++ m.Pkg.AffectedSymbols } }] := by
      simp [flattenStep, hm, hpn]
    rw [List.foldl_cons, hstep]
    rw [foldl_flattenStep_run ms
      { cur with Pkg := { cur.Pkg with AffectedSymbols :=
          cur.Pkg.AffectedSymbols ++ m.Pkg.AffectedSymbols } }
      (fun x hx => by simpa using hms x (List.mem_cons_of_mem m hx)) hpn]
    simp [List.flatMap_cons, List.append_assoc]

theorem flattenMatches_run (cur : VulnerabilityMatch) (ms : List VulnerabilityMatch)
    (hms : ∀ m ∈ ms, m.ID = cur.ID) (hpn : cur.Pkg.PackageName ≠ "") :
    flattenMatches (cur :: ms) =
      [{ cur with Pkg := { cur.Pkg with AffectedSymbols :=
          cur.Pkg.AffectedSymbols ++ ms.flatMap fun m => m.Pkg.AffectedSymbols } }] := by
  unfold flattenMatches
  rw [List.foldl_cons]
  have h0 : flattenStep [] cur = [cur] := rfl
  rw [h0, foldl_flattenStep_run ms cur hms hpn]
  rfl

theorem foldl_count_const (n : Nat) :
    ∀ (rows : List PhysRow) (init : Nat), rows ≠ [] →
      (∀ r ∈ rows, r.count = n) →
      rows.foldl (fun _ r => r.count) init = n
  | [], _, hne, _ => absurd rfl hne
  | [r], init, _, h => by simp [h r (List.mem_singleton.mpr rfl)]
  | r :: r2 :: rows, init, _, h => by
    rw [List.foldl_cons]
    exact foldl_count_const n (r2 :: rows) r.count (by simp)
      fun x hx => h x (List.mem_cons_of_mem r hx)

theorem totalCountOf_const (n : Nat) (rows : List PhysRow) (hne : rows ≠ [])
    (h : ∀ r ∈ rows, r.count = n) : totalCountOf rows = n :=
  foldl_count_const n rows 0 hne h

/-- C4: a match whose symbol fan-out produced N physical rows, all carrying
the package and one affected-symbol row each, reconstructs into exactly one
logical match whose affected package carries exactly N symbol entries, in row
order, with no duplicates introduced by the reconstruction. -/
theorem reconstruction_fanout (b : FanoutBase) (syms : List (String × List String))
    (hpn : b.package_name ≠ "") (hne : syms ≠ [])
    (hpaths : ∀ s ∈ syms, s.1 ≠ "") :
    scanVulnerabilityMatchesAndCount (syms.map (fanoutRow b)) =
      .ok ([fanoutResult b syms], b.count) := by
  cases syms with
  | nil => exact absurd rfl hne
  | cons s rest =>
    have hscan : scanRows ((s :: rest).map (fanoutRow b)) =
        .ok ((s :: rest).map (fanoutScanned b)) :=
      scanRows_map_ok _ _ _ fun a ha => scanRow_fanoutRow b a hpn (hpaths a ha)
    have hflat : flattenMatches ((s :: rest).map (fanoutScanned b)) =
        [fanoutResult b (s :: rest)] := by
      rw [List.map_cons]
      rw [flattenMatches_run (fanoutScanned b s) (rest.map (fanoutScanned b))
        (fun m hm => by
          obtain ⟨x, hx, rfl⟩ := List.mem_map.mp hm
          rfl)
        hpn]
      simp [fanoutScanned, fanoutResult, symbols_flatMap]
    have hcount : totalCountOf ((s :: rest).map (fanoutRow b)) = b.count := by
      apply totalCountOf_const
      · simp
      · intro r hr
        obtain ⟨x, hx, rfl⟩ := List.mem_map.mp hr
        rfl
    simp only [scanVulnerabilityMatchesAndCount, hscan, Except.map, hflat, hcount]

/-- Witness for C4: three symbol rows fan out of one match and reconstruct
into one logical match with three symbol entries in row order. -/
theorem reconstruction_fanout_witness :
    fanoutBase0.package_name ≠ "" ∧
    ([("a", ["s1"]), ("b", []), ("c", ["x"])] : List (String × List String)) ≠ [] ∧
    (∀ s ∈ ([("a", ["s1"]), ("b", []), ("c", ["x"])] : List (String × List String)),
      s.1 ≠ "") ∧
    scanVulnerabilityMatchesAndCount
        (([("a", ["s1"]), ("b", []), ("c", ["x"])] :
            List (String × List String)).map (fanoutRow fanoutBase0)) =
      .ok ([fanoutResult fanoutBase0 [("a", ["s1"]), ("b", []), ("c", ["x"])]],
        fanoutBase0.count) :=
  ⟨by decide, by decide, by decide,
    reconstruction_fanout fanoutBase0 [("a", ["s1"]), ("b", []), ("c", ["x"])]
      (by decide) (by decide) (by decide)⟩

/-! ## Lemmas on the paginated list query -/

theorem length_insertByKey (key : α → Nat) (a : α) :
    ∀ (l : List α), (insertByKey key a l).length = l.length + 1
  | [] => rfl
  | b :: bs => by
    unfold insertByKey
    split
    · rfl
    · simp [length_insertByKey key a bs]

theorem length_sortByKey (key : α → Nat) :
    ∀ (l : List α), (sortByKey key l).length = l.length
  | [] => rfl
  | a :: l => by
    show (insertByKey key a (sortByKey key l)).length = l.length + 1
    rw [length_insertByKey, length_sortByKey key l]

theorem mem_insertByKey (key : α → Nat) (a x : α) :
    ∀ (l : List α), x ∈ insertByKey key a l ↔ x = a ∨ x ∈ l
  | [] => by simp [insertByKey]
  | b :: bs => by
    unfold insertByKey
    split
    · simp only [List.mem_cons]
    · simp only [List.mem_cons, mem_insertByKey key a x bs]
      tauto

theorem mem_sortByKey (key : α → Nat) (x : α) :
    ∀ (l : List α), x ∈ sortByKey key l ↔ x ∈ l
  | [] => Iff.rfl
  | a :: l => by
    show x ∈ insertByKey key a (sortByKey key l) ↔ _
    rw [mem_insertByKey]
    simp [mem_sortByKey key x l]

theorem count_vid_of_mem_vapPhysRows (m : MatchRow) (cnt : Nat)
    (vap : VulnerabilityAffectedPackage) (syms : List AffectedSymbolRow) :
    ∀ r ∈ vapPhysRows m cnt vap syms,
      r.count = cnt ∧ r.vulnerability_id = some vap.vulnerability_id := by
  intro r hr
  simp only [vapPhysRows] at hr
  split at hr
  · rcases List.mem_singleton.mp hr with rfl
    exact ⟨rfl, rfl⟩
  · obtain ⟨s, hs, rfl⟩ := List.mem_map.mp hr
    exact ⟨rfl, rfl⟩

theorem count_of_mem_matchPhysRows (vaps : List VulnerabilityAffectedPackage)
    (syms : List AffectedSymbolRow) (cnt : Nat) (m : MatchRow) :
    ∀ r ∈ matchPhysRows vaps syms cnt m, r.count = cnt := by
  intro r hr
  simp only [matchPhysRows] at hr
  split at hr
  · rcases List.mem_singleton.mp hr with rfl
    rfl
  · obtain ⟨vap, hvap, hr2⟩ := List.mem_flatMap.mp hr
    exact (count_vid_of_mem_vapPhysRows m cnt vap syms r hr2).1

theorem vid_of_mem_matchPhysRows (vaps : List VulnerabilityAffectedPackage)
    (syms : List AffectedSymbolRow) (cnt : Nat) (m : MatchRow)
    (hfk : ∃ vap ∈ vaps, vap.id = m.vulnerability_affected_package_id) :
    ∀ r ∈ matchPhysRows vaps syms cnt m, r.vulnerability_id ≠ none := by
  intro r hr
  simp only [matchPhysRows] at hr
  split at hr
  · rename_i hempty
    obtain ⟨vap, hvap, hid⟩ := hfk
    exfalso
    have hmem : vap ∈ vaps.filter fun v =>
        v.id = m.vulnerability_affected_package_id := by
      simp [List.mem_filter, hvap, hid]
    have hne : (vaps.filter fun v =>
        v.id = m.vulnerability_affected_package_id) ≠ [] :=
      List.ne_nil_of_mem hmem
    rw [List.isEmpty_iff] at hempty
    have hlen := length_sortByKey (fun v => v.id)
      (vaps.filter fun v => v.id = m.vulnerability_affected_package_id)
    rw [hempty] at hlen
    exact hne (List.length_eq_zero.mp hlen.symm)
  · obtain ⟨vap, hvap, hr2⟩ := List.mem_flatMap.mp hr
    rw [(count_vid_of_mem_vapPhysRows m cnt vap syms r hr2).2]
    simp

theorem vapPhysRows_ne_nil (m : MatchRow) (cnt : Nat)
    (vap : VulnerabilityAffectedPackage) (syms : List AffectedSymbolRow) :
    vapPhysRows m cnt vap syms ≠ [] := by
  simp only [vapPhysRows]
  split
  · simp
  · rename_i hempty
    intro hmap
    rw [List.map_eq_nil_iff] at hmap
    rw [hmap] at hempty
    simp at hempty

theorem matchPhysRows_ne_nil (vaps : List VulnerabilityAffectedPackage)
    (syms : List AffectedSymbolRow) (cnt : Nat) (m : MatchRow) :
    matchPhysRows vaps syms cnt m ≠ [] := by
  simp only [matchPhysRows]
  split
  · simp
  · rename_i hempty
    cases hg : sortByKey (fun v => v.id)
        (vaps.filter fun v => v.id = m.vulnerability_affected_package_id) with
    | nil => rw [hg] at hempty; simp at hempty
    | cons g gs =>
      simp only [List.flatMap_cons]
      intro habs
      rcases List.append_eq_nil.mp habs with ⟨h1, h2⟩
      exact vapPhysRows_ne_nil m cnt g syms h1

theorem limitedMatches_ne_nil (t : MatchTable) (limit offset : Nat)
    (hlim : 0 < limit) (hoff : offset < t.rows.length) :
    limitedMatches t limit offset ≠ [] := by
  simp only [limitedMatches]
  intro h
  have hlen := congrArg List.length h
  rw [List.length_take, List.length_drop, length_sortByKey] at hlen
  simp only [List.length_nil] at hlen
  rw [Nat.min_def] at hlen
  split at hlen <;> omega

theorem mem_of_mem_limitedMatches (t : MatchTable) (limit offset : Nat) :
    ∀ m ∈ limitedMatches t limit offset, m ∈ t.rows := by
  intro m hm
  simp only [limitedMatches] at hm
  have h1 := List.mem_of_mem_take hm
  have h2 := List.mem_of_mem_drop h1
  exact (mem_sortByKey (fun r => r.id) m t.rows).mp h2

theorem count_of_mem_getRows (t : MatchTable)
    (vaps : List VulnerabilityAffectedPackage) (syms : List AffectedSymbolRow)
    (limit offset : Nat) :
    ∀ r ∈ getVulnerabilityMatchesRows t vaps syms limit offset,
      r.count = t.rows.length := by
  intro r hr
  simp only [getVulnerabilityMatchesRows] at hr
  obtain ⟨m, hm, hr2⟩ := List.mem_flatMap.mp hr
  exact count_of_mem_matchPhysRows vaps syms _ m r hr2

theorem getRows_ne_nil (t : MatchTable)
    (vaps : List VulnerabilityAffectedPackage) (syms : List AffectedSymbolRow)
    (limit offset : Nat) (hlim : 0 < limit) (hoff : offset < t.rows.length) :
    getVulnerabilityMatchesRows t vaps syms limit offset ≠ [] := by
  simp only [getVulnerabilityMatchesRows]
  cases hl : limitedMatches t limit offset with
  | nil => exact absurd hl (limitedMatches_ne_nil t limit offset hlim hoff)
  | cons m ms =>
    simp only [List.flatMap_cons]
    intro habs
    rcases List.append_eq_nil.mp habs with ⟨h1, h2⟩
    exact matchPhysRows_ne_nil vaps syms _ m h1

theorem scanRows_ok_of_vid :
    ∀ (rows : List PhysRow), (∀ r ∈ rows, r.vulnerability_id ≠ none) →
      ∃ ms, scanRows rows = .ok ms
  | [], _ => ⟨[], rfl⟩
  | r :: rows, h => by
    obtain ⟨ms, hms⟩ := scanRows_ok_of_vid rows
      fun x hx => h x (List.mem_cons_of_mem r hx)
    cases hv : r.vulnerability_id with
    | none => exact absurd hv (h r (List.mem_cons_self r rows))
    | some vid =>
      cases hsc : scanRows (r :: rows) with
      | ok ms2 => exact ⟨ms2, rfl⟩
      | error e =>
        exfalso
        unfold scanRows at hsc
        rw [scanRow_eq r vid hv, hms] at hsc
        simp at hsc

/-- C6: for a fixed matches table of N rows whose affected-package ids all
resolve in the catalog, every limit and offset selecting a nonempty page make
the one list query carry the count N on every physical row, and
GetVulnerabilityMatches returns totalCount = N, independent of the limit and
offset used. -/
theorem getVulnerabilityMatches_totalCount (t : MatchTable)
    (vaps : List VulnerabilityAffectedPackage) (syms : List AffectedSymbolRow)
    (limit offset : Nat) (hlim : 0 < limit) (hoff : offset < t.rows.length)
    (hfk : ∀ m ∈ t.rows, ∃ vap ∈ vaps,
      vap.id = m.vulnerability_affected_package_id) :
    (∀ r ∈ getVulnerabilityMatchesRows t vaps syms limit offset,
        r.count = t.rows.length) ∧
    resCount (GetVulnerabilityMatches t vaps syms limit offset) =
      some t.rows.length := by
  refine ⟨count_of_mem_getRows t vaps syms limit offset, ?_⟩
  have hvid : ∀ r ∈ getVulnerabilityMatchesRows t vaps syms limit offset,
      r.vulnerability_id ≠ none := by
    intro r hr
    simp only [getVulnerabilityMatchesRows] at hr
    obtain ⟨m, hm, hr2⟩ := List.mem_flatMap.mp hr
    exact vid_of_mem_matchPhysRows vaps syms _ m
      (hfk m (mem_of_mem_limitedMatches t limit offset m hm)) r hr2
  obtain ⟨ms, hms⟩ := scanRows_ok_of_vid _ hvid
  have hcnt : totalCountOf (getVulnerabilityMatchesRows t vaps syms limit offset) =
      t.rows.length :=
    totalCountOf_const _ _ (getRows_ne_nil t vaps syms limit offset hlim hoff)
      (count_of_mem_getRows t vaps syms limit offset)
  simp [GetVulnerabilityMatches, scanVulnerabilityMatchesAndCount, hms,
    Except.map, hcnt, resCount]

/-- Witness for C6: a two-row matches table read with limit 5 and offset 0
reports totalCount 2 on the result and on every physical row. -/
theorem getVulnerabilityMatches_totalCount_witness :
    0 < 5 ∧ 0 < tableTwo.rows.length ∧
    (∀ r ∈ getVulnerabilityMatchesRows tableTwo [vapBar] [] 5 0,
        r.count = tableTwo.rows.length) ∧
    resCount (GetVulnerabilityMatches tableTwo [vapBar] [] 5 0) =
      some tableTwo.rows.length :=
  ⟨by decide, by decide,
    (getVulnerabilityMatches_totalCount tableTwo [vapBar] [] 5 0
      (by decide) (by decide) (by decide)).1,
    (getVulnerabilityMatches_totalCount tableTwo [vapBar] [] 5 0
      (by decide) (by decide) (by decide)).2⟩
